import Mathlib

/-!
Verification of the card-matching and result-ranking engine of myPCGdex.

Strings are modelled as lists of characters (`Str`), so that the JavaScript
string primitives used by the source (`trim`, `split("/")`, `includes`,
`toLowerCase`, `localeCompare`, `parseInt`) become structurally recursive
list functions.  Each definition is a direct translation of the TypeScript
source; the file cites the source function it embeds.
-/

namespace PCGdex

/-- Strings as character lists (JS strings, one entry per code point). -/
abbrev Str := List Char

/-- The whitespace class trimmed by JS `String.prototype.trim` (ASCII
whitespace plus NBSP, BOM and the line/paragraph separators). -/
def jsWS (c : Char) : Bool :=
  c == ' ' || c == '\t' || c == '\n' || c == '\r' ||
  c == Char.ofNat 11 || c == Char.ofNat 12 || c == Char.ofNat 0xA0 ||
  c == Char.ofNat 0x2028 || c == Char.ofNat 0x2029 || c == Char.ofNat 0xFEFF

/-- Leading-whitespace removal, the first half of JS `trim`. -/
def trimLeft (l : Str) : Str := l.dropWhile jsWS

/-- Trailing-whitespace removal, the second half of JS `trim`. -/
def trimRight (l : Str) : Str := (l.reverse.dropWhile jsWS).reverse

/-- JS `String.prototype.trim`. -/
def jsTrim (l : Str) : Str := trimRight (trimLeft l)

/-- JS `String.prototype.split("/")`: splits at every `'/'`; the empty
string yields `[""]`. -/
def splitSlash : Str → List Str
  | [] => [[]]
  | c :: rest =>
    if c = '/' then [] :: splitSlash rest
    else
      match splitSlash rest with
      | [] => [[c]]
      | h :: t => (c :: h) :: t

/-- Whether a string matches the regex `^0*(\d+)$` of `normalizeCardNumber`:
non-empty and made of decimal digits only. -/
def isPureNum (l : Str) : Bool := !l.isEmpty && l.all Char.isDigit

/-- The capture group of `^0*(\d+)$`: the digits with leading zeros
stripped, keeping at least one digit (`"000"` captures `"0"`). -/
def stripZeros (l : Str) : Str :=
  let t := l.dropWhile (· == '0')
  if t.isEmpty then ['0'] else t

/-- JS `hay.includes(needle)` on strings: substring test. -/
def strContains (hay needle : Str) : Bool := decide (needle <:+: hay)

/-- JS `String.prototype.toLowerCase` (per-character lowering). -/
def jsToLower (l : Str) : Str := l.map Char.toLower

/-- Model of `localeCompare` on ISO-date strings: three-valued
lexicographic comparison by character code. -/
def strCmp : Str → Str → Int
  | [], [] => 0
  | [], _ :: _ => -1
  | _ :: _, [] => 1
  | a :: s, b :: t =>
    if a = b then strCmp s t
    else if a < b then -1 else 1

/-- Digit-prefix value for `parseIntPrefix`; `none` when the string does
not start with a digit. -/
def digitsPrefixVal (s : Str) : Option Nat :=
  let ds := s.takeWhile Char.isDigit
  if ds.isEmpty then none
  else some (ds.foldl (fun a c => a * 10 + (c.toNat - 48)) 0)

/-- JS `parseInt(s, 10)`: skip leading whitespace, optional sign, then the
longest digit prefix; `none` models `NaN`. -/
def parseIntPrefixJS (s : Str) : Option Int :=
  match s.dropWhile jsWS with
  | '-' :: rest => (digitsPrefixVal rest).map (fun n => -(n : Int))
  | '+' :: rest => (digitsPrefixVal rest).map (fun n => (n : Int))
  | other => (digitsPrefixVal other).map (fun n => (n : Int))

/-- JS truthiness of a string: non-empty. -/
def jsTruthy (s : Str) : Bool := !s.isEmpty

/-- JS truthiness of an optional string (`undefined` and `""` are falsy). -/
def jsTruthyO : Option Str → Bool
  | none => false
  | some s => !s.isEmpty

/-- `NormalizedCardNumber` from `normalize.ts` (src/unnamed/part_010). -/
structure NormalizedCardNumber where
  number : Str
  total : Option Str
  full : Str
  original : Str
  hasTotal : Bool
deriving DecidableEq, Repr

/-- `normalizeCardNumber` from `normalize.ts` lines 36-96.  The source
trims the input, returns the all-empty record on an empty string, splits
on `'/'`, and strips leading zeros from purely numeric tokens (the regex
`^0*(\d+)$`), keeping alphanumeric tokens verbatim. -/
def normalizeCardNumber (input : Str) : NormalizedCardNumber :=
  let original := jsTrim input
  if original.isEmpty then
    { number := [], total := none, full := [], original := [], hasTotal := false }
  else
    match splitSlash original with
    | [numberPart, totalPart] =>
      let normalizedNum := if isPureNum numberPart then stripZeros numberPart else numberPart
      { number := normalizedNum, total := some totalPart,
        full := normalizedNum ++ '/' :: totalPart, original := original, hasTotal := true }
    | _ =>
      if isPureNum original then
        let normalizedNum := stripZeros original
        { number := normalizedNum, total := none, full := normalizedNum,
          original := original, hasTotal := false }
      else
        { number := original, total := none, full := original,
          original := original, hasTotal := false }

/-- The score breakdown of `AccuracyScoreResult` (normalize.ts lines 134-144). -/
structure ScoreBreakdown where
  numberMatch : Int
  nameMatch : Int
  setMatch : Int
  languageBonus : Int
  priceBonus : Int
  recencyBonus : Int
deriving DecidableEq, Repr

/-- `AccuracyScoreResult` from normalize.ts. -/
structure AccuracyScoreResult where
  score : Int
  breakdown : ScoreBreakdown
deriving DecidableEq, Repr

/-- `AccuracyScoreParams` from normalize.ts lines 113-132.  The optional
`hasMarketPrice?: boolean` is modelled as a `Bool` (absent means `false`
under the `if (hasMarketPrice)` truthiness test); `queryLanguage` is never
read by the scorer and is omitted. -/
structure AccuracyScoreParams where
  cardNumber : Str
  cardName : Str
  cardSetId : Str
  cardReleaseDate : Option Str
  hasMarketPrice : Bool
  queryNumber : NormalizedCardNumber
  queryName : Str
  querySetId : Option Str
deriving DecidableEq, Repr

/-- The number-matching block of `calculateAccuracyScore`
(normalize.ts lines 168-187). -/
def numberMatchScore (cardNumber : Str) (queryNumber : NormalizedCardNumber) : Int :=
  let normalizedCardNumber := normalizeCardNumber cardNumber
  if jsTruthy queryNumber.number then
    if normalizedCardNumber.number = queryNumber.number then 50
    else if strContains cardNumber queryNumber.number then 30
    else if strContains queryNumber.number normalizedCardNumber.number ||
            strContains normalizedCardNumber.number queryNumber.number then 20
    else 0
  else 0

/-- The name-matching block of `calculateAccuracyScore`
(normalize.ts lines 189-201). -/
def nameMatchScore (cardName queryName : Str) : Int :=
  if jsTruthy queryName then
    let normalizedCardName := jsTrim (jsToLower cardName)
    let normalizedQueryName := jsTrim (jsToLower queryName)
    if normalizedCardName = normalizedQueryName then 30
    else if strContains normalizedCardName normalizedQueryName then 15
    else if strContains normalizedQueryName normalizedCardName then 10
    else 0
  else 0

/-- The set-id-matching block of `calculateAccuracyScore`
(normalize.ts lines 203-216). -/
def setMatchScore (cardSetId : Str) (querySetId : Option Str) : Int :=
  if jsTruthyO querySetId then
    let q := querySetId.getD []
    let normalizedCardSetId := jsTrim (jsToLower cardSetId)
    let normalizedQuerySetId := jsTrim (jsToLower q)
    if normalizedCardSetId = normalizedQuerySetId then 25
    else if strContains normalizedCardSetId normalizedQuerySetId ||
            strContains normalizedQuerySetId normalizedCardSetId then 10
    else 0
  else 0

/-- The recency block of `calculateAccuracyScore` (normalize.ts lines
223-232): `parseInt(releaseDate.substring(0, 4), 10)` compared against the
current year; an unparseable year (`NaN`) fails both comparisons.  The
impure `new Date().getFullYear()` is passed in as `currentYear`. -/
def recencyBonusScore (cardReleaseDate : Option Str) (currentYear : Int) : Int :=
  if jsTruthyO cardReleaseDate then
    match parseIntPrefixJS ((cardReleaseDate.getD []).take 4) with
    | none => 0
    | some releaseYear =>
      if releaseYear ≥ currentYear - 1 then 2
      else if releaseYear ≥ currentYear - 3 then 1
      else 0
  else 0

/-- `calculateAccuracyScore` from normalize.ts lines 149-247, with the six
component computations factored into the helper functions above exactly as
the source computes them in sequence. -/
def calculateAccuracyScore (p : AccuracyScoreParams) (currentYear : Int) :
    AccuracyScoreResult :=
  let numberMatch := numberMatchScore p.cardNumber p.queryNumber
  let nameMatch := nameMatchScore p.cardName p.queryName
  let setMatch := setMatchScore p.cardSetId p.querySetId
  let languageBonus : Int := 0
  let priceBonus : Int := if p.hasMarketPrice then 3 else 0
  let recencyBonus := recencyBonusScore p.cardReleaseDate currentYear
  { score := numberMatch + nameMatch + setMatch + languageBonus + priceBonus + recencyBonus,
    breakdown := { numberMatch := numberMatch, nameMatch := nameMatch, setMatch := setMatch,
                   languageBonus := languageBonus, priceBonus := priceBonus,
                   recencyBonus := recencyBonus } }

/-- The element shape `{ score: number; releaseDate?: string }` sorted by
`sortByAccuracy` (normalize.ts lines 253-267). -/
structure SortCard where
  score : Int
  releaseDate : Option Str
deriving DecidableEq, Repr

/-- The comparator passed to `Array.prototype.sort` by `sortByAccuracy`
(normalize.ts lines 256-266): score descending, then — only when both
release dates are truthy — release date descending; otherwise `0`. -/
def sortCmp (a b : SortCard) : Int :=
  if b.score ≠ a.score then b.score - a.score
  else if jsTruthyO a.releaseDate && jsTruthyO b.releaseDate then
    strCmp (b.releaseDate.getD []) (a.releaseDate.getD [])
  else 0

/-- The "keeps-or-swaps" relation induced by the comparator: `a` may stay
before `b` exactly when the comparator is non-positive. -/
def sortR (a b : SortCard) : Prop := sortCmp a b ≤ 0

instance : DecidableRel sortR := fun a b => by unfold sortR; infer_instance

/-- `sortByAccuracy` from normalize.ts lines 253-267: a stable sort of a
copy of the array under `sortCmp` (ES2019 `Array.prototype.sort` is
stable; modelled by insertion sort, which realizes the stable-sort
contract). -/
def sortByAccuracy (cards : List SortCard) : List SortCard :=
  List.insertionSort sortR cards

/-- `TCGCardSet` (tcg/types.ts): the fields the engine reads. -/
structure TCGCardSet where
  id : Str
  name : Str
  releaseDate : Str
deriving DecidableEq, Repr

/-- One per-finish price entry; only `market` is ever read
(`null` modelled as `none`). -/
structure TCGCardPrice where
  market : Option Rat
deriving DecidableEq, Repr

/-- `TCGPlayerPrices` (tcg/types.ts): optional per-finish price tables. -/
structure TCGPlayerPrices where
  normal : Option TCGCardPrice
  holofoil : Option TCGCardPrice
  reverseHolofoil : Option TCGCardPrice
deriving DecidableEq, Repr

/-- `TCGPlayer` (tcg/types.ts): only `prices` is read by the engine. -/
structure TCGPlayer where
  prices : Option TCGPlayerPrices
deriving DecidableEq, Repr

/-- `TCGCard` (tcg/types.ts): the fields read by scoring, filtering and
price resolution. -/
structure TCGCard where
  id : Str
  name : Str
  number : Str
  rarity : Option Str
  set : TCGCardSet
  tcgplayer : Option TCGPlayer
deriving DecidableEq, Repr

/-- `getCardMarketPrice` from tcg/client.ts lines 170-185: first non-null
`market` price in the finish priority order holofoil, reverseHolofoil,
normal; `none` when no price table or no market price is present. -/
def getCardMarketPrice (card : TCGCard) : Option Rat :=
  match card.tcgplayer with
  | none => none
  | some tp =>
    match tp.prices with
    | none => none
    | some prices =>
      match prices.holofoil with
      | some pr =>
        match pr.market with
        | some m => some m
        | none => nextAfterHolo prices
      | none => nextAfterHolo prices
where
  /-- Continue the finish loop after `holofoil`. -/
  nextAfterHolo (prices : TCGPlayerPrices) : Option Rat :=
    match prices.reverseHolofoil with
    | some pr =>
      match pr.market with
      | some m => some m
      | none => nextNormal prices
    | none => nextNormal prices
  /-- Last iteration of the finish loop: `normal`. -/
  nextNormal (prices : TCGPlayerPrices) : Option Rat :=
    match prices.normal with
    | some pr => pr.market
    | none => none

/-- `ScoredCard` (tcg/hooks.ts lines 27-39): a card together with its
accuracy score and breakdown (the source spreads the card record; here the
card is kept as a field). -/
structure ScoredCard where
  card : TCGCard
  accuracyScore : Int
  scoreBreakdown : ScoreBreakdown
deriving DecidableEq, Repr

/-- The per-card mapping step of `scoreAndSortCards`
(tcg/hooks.ts lines 82-99). -/
def mkScoredCard (card : TCGCard) (queryNumber : NormalizedCardNumber)
    (queryName : Str) (querySetId : Option Str) (currentYear : Int) : ScoredCard :=
  let result := calculateAccuracyScore
    { cardNumber := card.number, cardName := card.name, cardSetId := card.set.id,
      cardReleaseDate := some card.set.releaseDate,
      hasMarketPrice := (getCardMarketPrice card).isSome,
      queryNumber := queryNumber, queryName := queryName, querySetId := querySetId }
    currentYear
  { card := card, accuracyScore := result.score, scoreBreakdown := result.breakdown }

/-- The comparator of the inline sort in `scoreAndSortCards`
(tcg/hooks.ts lines 102-108): accuracy score descending, then release date
descending (`set.releaseDate` is a required string there, no guard). -/
def scoredCmp (a b : ScoredCard) : Int :=
  if b.accuracyScore ≠ a.accuracyScore then b.accuracyScore - a.accuracyScore
  else strCmp b.card.set.releaseDate a.card.set.releaseDate

/-- Keeps-or-swaps relation of `scoredCmp`. -/
def scoredR (a b : ScoredCard) : Prop := scoredCmp a b ≤ 0

instance : DecidableRel scoredR := fun a b => by unfold scoredR; infer_instance

/-- `scoreAndSortCards` from tcg/hooks.ts lines 76-109: map every card to
a `ScoredCard`, then stable-sort by the inline comparator. -/
def scoreAndSortCards (cards : List TCGCard) (queryNumber : NormalizedCardNumber)
    (queryName : Str) (querySetId : Option Str) (currentYear : Int) : List ScoredCard :=
  List.insertionSort scoredR (cards.map (mkScoredCard · queryNumber queryName querySetId currentYear))

/-- `CardSearchResult` (tcg/types.ts). -/
structure CardSearchResult where
  success : Bool
  cards : List TCGCard
  totalCount : Int
  error : Option Str
deriving DecidableEq, Repr

/-- `ScoredCardSearchResult` (tcg/hooks.ts lines 22-25): a
`CardSearchResult` extended with the scored cards. -/
structure ScoredCardSearchResult where
  success : Bool
  cards : List TCGCard
  scoredCards : List ScoredCard
  totalCount : Int
  error : Option Str
deriving DecidableEq, Repr

/-- `SearchCardsParams` (tcg/hooks.ts lines 13-17). -/
structure SearchCardsParams where
  name : Option Str
  number : Option Str
  setId : Option Str
deriving DecidableEq, Repr

/-- The body a search response parses to: the fields `fetchCards` reads
from `response.json()` (`error` on the failure path, `cards`/`totalCount`
on the success path; absent fields are `none`). -/
structure RespBody where
  error : Option Str
  cards : Option (List TCGCard)
  totalCount : Option Int
deriving DecidableEq, Repr

/-- How one `fetch` call to `/api/cards/search` can resolve:
`reject errName` models the fetch promise rejecting (network failure, or
an abort with `errName = "AbortError"`); `resp ok body` models a received
HTTP response whose `ok` flag is `ok` and whose body parses as JSON to
`body` (or fails to parse when `body = none`, making `response.json()`
reject). -/
inductive HttpOutcome where
  | reject (errName : Str)
  | resp (ok : Bool) (body : Option RespBody)
deriving DecidableEq, Repr

/-- A JS exception propagating out of an `async` function, identified by
its error name. -/
abbrev JsError := Str

/-- `fetchCards` from tcg/hooks.ts lines 44-71 as a function of how the
underlying `fetch` resolves.  A rejected fetch, or a body that fails JSON
parsing, propagates as an exception (`Except.error`); a non-OK response
with a JSON body yields the structured failure `{success:false, error:
errorData.error || "Search failed"}`; an OK response yields
`{success:true, cards: data.cards || [], totalCount: data.totalCount || 0}`. -/
def fetchCards (o : HttpOutcome) : Except JsError CardSearchResult :=
  match o with
  | .reject errName => .error errName
  | .resp _ none => .error "SyntaxError".toList
  | .resp true (some data) =>
    .ok { success := true, cards := data.cards.getD [], totalCount := data.totalCount.getD 0,
          error := none }
  | .resp false (some errorData) =>
    .ok { success := false, cards := [], totalCount := 0,
          error := some (match errorData.error with
                         | some e => if e.isEmpty then "Search failed".toList else e
                         | none => "Search failed".toList) }

/-- `VisionResponse` (lib/types/vision.ts): the fields the cascade reads. -/
structure VisionResponse where
  pokemon_name : Str
  card_number : Str
  set_id : Option Str
  language : Str
deriving DecidableEq, Repr

/-- Attach the scored-and-sorted cards to a strategy's raw result:
`{ ...result, scoredCards }` as built at each return site of the cascade
(tcg/hooks.ts lines 204-210, 221-227, 238-244, 251-257). -/
def mkScoredResult (r : CardSearchResult) (queryNumber : NormalizedCardNumber)
    (queryName : Str) (querySetId : Option Str) (currentYear : Int) :
    ScoredCardSearchResult :=
  { success := r.success, cards := r.cards,
    scoredCards := scoreAndSortCards r.cards queryNumber queryName querySetId currentYear,
    totalCount := r.totalCount, error := r.error }

/-- The guard of the short-circuit return after strategies 1-3:
`result.success && result.cards.length > 0`. -/
def cascadeHit (r : CardSearchResult) : Bool := r.success && !r.cards.isEmpty

/-- The `queryFn` of `useSearchFromVision` (tcg/hooks.ts lines 175-267),
as a function of the catalog oracle `fetchO` (how each issued fetch
resolves) and the impure current year.  Returns the produced
`ScoredCardSearchResult` (or a propagated exception) together with the
trace of `SearchCardsParams` actually sent to the catalog, in order. -/
def searchFromVision (fetchO : SearchCardsParams → HttpOutcome)
    (visionResult : Option VisionResponse) (currentYear : Int) :
    Except JsError ScoredCardSearchResult × List SearchCardsParams :=
  match visionResult with
  | none =>
    (.ok { success := false, cards := [], scoredCards := [], totalCount := 0,
           error := some "No vision result".toList }, [])
  | some vr =>
    let normalizedNumber := normalizeCardNumber vr.card_number
    -- Strategy 1: card_number + set_id
    if jsTruthy vr.card_number && jsTruthyO vr.set_id then
      let p1 : SearchCardsParams := { name := none, number := some normalizedNumber.number, setId := vr.set_id }
      match fetchCards (fetchO p1) with
      | .error e => (.error e, [p1])
      | .ok r =>
        if cascadeHit r then
          (.ok (mkScoredResult r normalizedNumber vr.pokemon_name vr.set_id currentYear), [p1])
        else
          let rest := searchAfter1 fetchO vr normalizedNumber currentYear
          (rest.1, p1 :: rest.2)
    else
      searchAfter1 fetchO vr normalizedNumber currentYear
where
  /-- Strategies 2-4 and the final fallback (the code after the strategy-1
  block). -/
  searchAfter1 (fetchO : SearchCardsParams → HttpOutcome) (vr : VisionResponse)
      (normalizedNumber : NormalizedCardNumber) (currentYear : Int) :
      Except JsError ScoredCardSearchResult × List SearchCardsParams :=
    -- Strategy 2: card_number + pokemon_name
    if jsTruthy vr.card_number && jsTruthy vr.pokemon_name then
      let p2 : SearchCardsParams := { name := some vr.pokemon_name, number := some normalizedNumber.number, setId := none }
      match fetchCards (fetchO p2) with
      | .error e => (.error e, [p2])
      | .ok r =>
        if cascadeHit r then
          (.ok (mkScoredResult r normalizedNumber vr.pokemon_name vr.set_id currentYear), [p2])
        else
          let rest := searchAfter2 fetchO vr normalizedNumber currentYear
          (rest.1, p2 :: rest.2)
    else
      searchAfter2 fetchO vr normalizedNumber currentYear
  /-- Strategies 3-4 and the final fallback. -/
  searchAfter2 (fetchO : SearchCardsParams → HttpOutcome) (vr : VisionResponse)
      (normalizedNumber : NormalizedCardNumber) (currentYear : Int) :
      Except JsError ScoredCardSearchResult × List SearchCardsParams :=
    -- Strategy 3: card_number only
    if jsTruthy vr.card_number then
      let p3 : SearchCardsParams := { name := none, number := some normalizedNumber.number, setId := none }
      match fetchCards (fetchO p3) with
      | .error e => (.error e, [p3])
      | .ok r =>
        if cascadeHit r then
          (.ok (mkScoredResult r normalizedNumber vr.pokemon_name vr.set_id currentYear), [p3])
        else
          let rest := searchAfter3 fetchO vr normalizedNumber currentYear
          (rest.1, p3 :: rest.2)
    else
      searchAfter3 fetchO vr normalizedNumber currentYear
  /-- Strategy 4 (unconditional return when enabled) and the final
  fallback. -/
  searchAfter3 (fetchO : SearchCardsParams → HttpOutcome) (vr : VisionResponse)
      (normalizedNumber : NormalizedCardNumber) (currentYear : Int) :
      Except JsError ScoredCardSearchResult × List SearchCardsParams :=
    -- Strategy 4: pokemon_name only (returns even with zero results)
    if jsTruthy vr.pokemon_name then
      let p4 : SearchCardsParams := { name := some vr.pokemon_name, number := none, setId := none }
      match fetchCards (fetchO p4) with
      | .error e => (.error e, [p4])
      | .ok r =>
        (.ok (mkScoredResult r normalizedNumber vr.pokemon_name vr.set_id currentYear), [p4])
    else
      (.ok { success := false, cards := [], scoredCards := [], totalCount := 0,
             error := some "No search criteria".toList }, [])

/-- The ordered list of cascade strategies a vision result enables: the
catalog parameters each enabled strategy sends, paired with whether the
strategy returns unconditionally (only strategy 4 does).  Derived from the
four guards of `searchFromVision`; used to state the cascade theorems. -/
def strategyList (vr : VisionResponse) : List (SearchCardsParams × Bool) :=
  let nn := normalizeCardNumber vr.card_number
  (if jsTruthy vr.card_number && jsTruthyO vr.set_id then
    [({ name := none, number := some nn.number, setId := vr.set_id }, false)] else []) ++
  (if jsTruthy vr.card_number && jsTruthy vr.pokemon_name then
    [({ name := some vr.pokemon_name, number := some nn.number, setId := none }, false)] else []) ++
  (if jsTruthy vr.card_number then
    [({ name := none, number := some nn.number, setId := none }, false)] else []) ++
  (if jsTruthy vr.pokemon_name then
    [({ name := some vr.pokemon_name, number := none, setId := none }, true)] else [])

/-- Generic runner for a list of cascade strategies: call each strategy's
fetch in order; propagate exceptions; return the scored result at the
first hit (or unconditionally for an unconditional strategy); fall through
otherwise; produce the "No search criteria" failure when the list is
exhausted.  `searchFromVision` on `some vr` is proved equal to this runner
on `strategyList vr`. -/
def runStrategies (fetchO : SearchCardsParams → HttpOutcome)
    (vr : VisionResponse) (normalizedNumber : NormalizedCardNumber) (currentYear : Int) :
    List (SearchCardsParams × Bool) →
    Except JsError ScoredCardSearchResult × List SearchCardsParams
  | [] =>
    (.ok { success := false, cards := [], scoredCards := [], totalCount := 0,
           error := some "No search criteria".toList }, [])
  | (p, uncond) :: rest =>
    match fetchCards (fetchO p) with
    | .error e => (.error e, [p])
    | .ok r =>
      if uncond || cascadeHit r then
        (.ok (mkScoredResult r normalizedNumber vr.pokemon_name vr.set_id currentYear), [p])
      else
        let next := runStrategies fetchO vr normalizedNumber currentYear rest
        (next.1, p :: next.2)

/-- The record returned by `paginateCards`. -/
structure PaginateResult (α : Type) where
  items : List α
  hasMore : Bool
  totalPages : Nat
deriving DecidableEq, Repr

/-- `paginateCards` from tcg/hooks.ts lines 323-338: 1-indexed page,
`items = cards.slice(start, start + pageSize)`, `hasMore = end < length`,
`totalPages = Math.ceil(length / pageSize)` (exact ceiling division for a
positive page size). -/
def paginateCards {α : Type} (cards : List α) (page pageSize : Nat) :
    PaginateResult α :=
  let start := (page - 1) * pageSize
  let stop := start + pageSize
  { items := (cards.drop start).take pageSize,
    hasMore := decide (stop < cards.length),
    totalPages := (cards.length + pageSize - 1) / pageSize }

/-- The retry predicate of `useSearchFromVision` (tcg/hooks.ts lines
272-279): never retry an `AbortError`; otherwise retry while the failure
count is below 3.  The error is identified by its name. -/
def visionRetry (failureCount : Nat) (errName : Str) : Bool :=
  if errName = "AbortError".toList then false
  else decide (failureCount < 3)

/-- `retryDelay` of `useSearchFromVision` (tcg/hooks.ts lines 280-283):
`Math.min(1000 * 2 ** attemptIndex, 10000)` milliseconds. -/
def visionRetryDelay (attemptIndex : Nat) : Nat :=
  min (1000 * 2 ^ attemptIndex) 10000

/-- Modelled from the TanStack Query retry contract (the library driving
`retry`/`retryDelay` is an external collaborator): after each failed
attempt the retry callback receives the current failure count — starting
at 0 and incremented per failure — and a retry happens exactly when it
returns `true` (the numeric setting `retry: n`, documented as n retries
after the initial attempt, is the callback `fun fc => fc < n`).  Given the
error name of each failed attempt and fuel bounding the loop, returns the
total number of attempts performed when every attempt fails. -/
def attemptsFrom (pred : Nat → Str → Bool) (errs : Nat → Str) :
    Nat → Nat → Nat
  | failureCount, 0 => failureCount + 1
  | failureCount, fuel + 1 =>
    if pred failureCount (errs failureCount) then
      attemptsFrom pred errs (failureCount + 1) fuel
    else failureCount + 1

/-- Total attempts of an all-failing query run under the hook's retry
predicate (fuel 10 is more than the predicate can ever consume). -/
def totalAttempts (errs : Nat → Str) : Nat := attemptsFrom visionRetry errs 0 10

/-- The number-match point rule as the specification words it (§4.2):
50 if the normalized forms are exactly equal; else 30 if the candidate's
raw number string contains the normalized query number as a substring;
else 20 if either normalized form is a substring of the other; else 0;
and 0 when the query's normalized number is empty.  Stated independently
of the source to compare against `numberMatchScore`. -/
def numberMatchSpec (cardNumber : Str) (queryNumber : NormalizedCardNumber) : Int :=
  if queryNumber.number = [] then 0
  else if (normalizeCardNumber cardNumber).number = queryNumber.number then 50
  else if queryNumber.number <:+: cardNumber then 30
  else if queryNumber.number <:+: (normalizeCardNumber cardNumber).number ∨
          (normalizeCardNumber cardNumber).number <:+: queryNumber.number then 20
  else 0

/-- A concrete catalog card used by the concrete instantiations below. -/
def sampleCard : TCGCard :=
  { id := ['c'], name := ['P','i','k','a'], number := ['2','5'], rarity := none,
    set := { id := ['s','v'], name := ['S'], releaseDate := ['2','0','2','3'] },
    tcgplayer := none }

/-- A concrete vision result enabling all four cascade strategies. -/
def sampleVision : VisionResponse :=
  { pokemon_name := ['P','i','k','a'], card_number := ['2','5'],
    set_id := some ['s','v'], language := ['e','n'] }

/-- The catalog parameters of strategy 1 for `sampleVision`. -/
def missParams : SearchCardsParams :=
  { name := none, number := some ['2','5'], setId := some ['s','v'] }

/-- A concrete catalog oracle: strategy 1's query succeeds with zero
cards, every other query succeeds with one card. -/
def sampleOracle : SearchCardsParams → HttpOutcome := fun q =>
  if q = missParams then
    HttpOutcome.resp true (some { error := none, cards := some [], totalCount := some 0 })
  else
    HttpOutcome.resp true
      (some { error := none, cards := some [sampleCard], totalCount := some 1 })

/-! ## Helper lemmas -/

/-- A whitespace character is not a digit. -/
theorem isDigit_of_jsWS {c : Char} (h : jsWS c = true) : c.isDigit = false := by
  unfold jsWS at h
  simp only [Bool.or_eq_true, beq_iff_eq] at h
  rcases h with ((((((((rfl | rfl) | rfl) | rfl) | rfl) | rfl) | rfl) | rfl) | rfl) | rfl <;>
    decide

/-- A digit is not JS whitespace. -/
theorem not_jsWS_of_isDigit {c : Char} (h : c.isDigit = true) : jsWS c = false := by
  cases hw : jsWS c with
  | false => rfl
  | true => rw [isDigit_of_jsWS hw] at h; cases h

/-- A slash is not JS whitespace. -/
theorem not_jsWS_slash : jsWS '/' = false := by decide

/-- A non-empty prefix has the same head. -/
theorem head?_eq_of_isPrefixOf {l₁ l₂ : List Char} (h : l₁ <+: l₂) (hne : l₁ ≠ []) :
    l₂.head? = l₁.head? := by
  obtain ⟨t, rfl⟩ := h
  cases l₁ with
  | nil => cases hne rfl
  | cons a s => rfl

/-- `trimRight` shortens a list only at its end. -/
theorem trimRight_isPrefixOf (l : Str) : trimRight l <+: l := by
  have h := List.dropWhile_suffix (l := l.reverse) jsWS
  obtain ⟨t, ht⟩ := h
  refine ⟨t.reverse, ?_⟩
  have := congrArg List.reverse ht
  simpa [trimRight] using this

/-- A list whose head is not whitespace is unchanged by `trimLeft`. -/
theorem trimLeft_eq_self {l : Str} (h : ∀ x, l.head? = some x → jsWS x = false) :
    trimLeft l = l := by
  cases l with
  | nil => rfl
  | cons a s => exact List.dropWhile_cons_of_neg (by simp [h a rfl])

/-- A list whose last character is not whitespace is unchanged by
`trimRight`. -/
theorem trimRight_eq_self {l : Str} (h : ∀ x, l.reverse.head? = some x → jsWS x = false) :
    trimRight l = l := by
  show (trimLeft l.reverse).reverse = l
  rw [trimLeft_eq_self h, List.reverse_reverse]

/-- The head of a `trimLeft` result is never whitespace. -/
theorem head?_trimLeft {l : Str} {x : Char} (h : (trimLeft l).head? = some x) :
    jsWS x = false := by
  have := List.head?_dropWhile_not jsWS l
  rw [show l.dropWhile jsWS = trimLeft l from rfl, h] at this
  exact this

/-- The head of a `jsTrim` result is never whitespace. -/
theorem head?_jsTrim {l : Str} {x : Char} (h : (jsTrim l).head? = some x) :
    jsWS x = false := by
  have hpre := trimRight_isPrefixOf (trimLeft l)
  have hne : jsTrim l ≠ [] := by intro he; rw [he] at h; cases h
  have heq := head?_eq_of_isPrefixOf hpre hne
  exact head?_trimLeft (heq ▸ h)

/-- The last character of a `jsTrim` result is never whitespace. -/
theorem head?_reverse_jsTrim {l : Str} {x : Char} (h : (jsTrim l).reverse.head? = some x) :
    jsWS x = false := by
  have hrw : (jsTrim l).reverse = (trimLeft l).reverse.dropWhile jsWS := by
    simp [jsTrim, trimRight]
  rw [hrw] at h
  have := List.head?_dropWhile_not jsWS (trimLeft l).reverse
  rw [h] at this
  exact this

/-- A string whose head and last character are not whitespace is unchanged
by `jsTrim`. -/
theorem jsTrim_eq_self {l : Str}
    (h1 : ∀ x, l.head? = some x → jsWS x = false)
    (h2 : ∀ x, l.reverse.head? = some x → jsWS x = false) :
    jsTrim l = l := by
  unfold jsTrim
  rw [trimLeft_eq_self h1]
  exact trimRight_eq_self h2

/-- `jsTrim` is idempotent. -/
theorem jsTrim_idem (l : Str) : jsTrim (jsTrim l) = jsTrim l :=
  jsTrim_eq_self (fun _ hx => head?_jsTrim hx) (fun _ hx => head?_reverse_jsTrim hx)

/-- `splitSlash` never returns the empty list. -/
theorem splitSlash_ne_nil (l : Str) : splitSlash l ≠ [] := by
  cases l with
  | nil => simp [splitSlash]
  | cons c rest =>
    unfold splitSlash
    split
    · simp
    · cases h : splitSlash rest <;> simp

/-- A singleton `splitSlash` result is the whole slash-free input. -/
theorem splitSlash_eq_single {l x : Str} (h : splitSlash l = [x]) :
    l = x ∧ '/' ∉ x := by
  induction l generalizing x with
  | nil =>
    unfold splitSlash at h
    injection h with h1 _
    exact ⟨h1, h1 ▸ by simp⟩
  | cons c rest ih =>
    unfold splitSlash at h
    by_cases hc : c = '/'
    · rw [if_pos hc] at h
      injection h with _ h2
      exact absurd h2 (splitSlash_ne_nil rest)
    · rw [if_neg hc] at h
      cases hr : splitSlash rest with
      | nil => exact absurd hr (splitSlash_ne_nil rest)
      | cons a t =>
        rw [hr] at h
        injection h with h1 h2
        subst h2
        obtain ⟨rfl, hna⟩ := ih hr
        subst h1
        refine ⟨rfl, fun hm => ?_⟩
        rcases List.mem_cons.mp hm with he | hm2
        · exact hc he.symm
        · exact hna hm2

/-- `splitSlash` of a slash-free string is that string alone. -/
theorem splitSlash_no_slash {l : Str} (h : '/' ∉ l) : splitSlash l = [l] := by
  induction l with
  | nil => rfl
  | cons c rest ih =>
    have hc : c ≠ '/' := fun he => h (he ▸ List.mem_cons_self c rest)
    have hrest : '/' ∉ rest := fun hm => h (List.mem_cons_of_mem c hm)
    unfold splitSlash
    rw [if_neg hc, ih hrest]

/-- A two-element `splitSlash` result decomposes the input at its unique
slash. -/
theorem splitSlash_eq_pair {l a b : Str} (h : splitSlash l = [a, b]) :
    '/' ∉ a ∧ '/' ∉ b ∧ l = a ++ '/' :: b := by
  induction l generalizing a with
  | nil =>
    unfold splitSlash at h
    injection h with _ h2
    cases h2
  | cons c rest ih =>
    unfold splitSlash at h
    by_cases hc : c = '/'
    · rw [if_pos hc] at h
      injection h with h1 h2
      subst h1
      obtain ⟨rfl, hnb⟩ := splitSlash_eq_single h2
      exact ⟨by simp, hnb, by simp [hc]⟩
    · rw [if_neg hc] at h
      cases hr : splitSlash rest with
      | nil => exact absurd hr (splitSlash_ne_nil rest)
      | cons x t =>
        rw [hr] at h
        injection h with h1 h2
        subst h2
        obtain ⟨hnx, hnb, rfl⟩ := ih hr
        subst h1
        refine ⟨fun hm => ?_, hnb, by simp⟩
        rcases List.mem_cons.mp hm with he | hm2
        · exact hc he.symm
        · exact hnx hm2

/-- Reconstructing a slash-split pair gives back the two components. -/
theorem splitSlash_append {a b : Str} (ha : '/' ∉ a) (hb : '/' ∉ b) :
    splitSlash (a ++ '/' :: b) = [a, b] := by
  induction a with
  | nil =>
    show splitSlash ('/' :: b) = [[], b]
    unfold splitSlash
    rw [if_pos rfl, splitSlash_no_slash hb]
  | cons c s ih =>
    have hc : c ≠ '/' := fun he => ha (he ▸ List.mem_cons_self c s)
    have hs : '/' ∉ s := fun hm => ha (List.mem_cons_of_mem c hm)
    show splitSlash (c :: (s ++ '/' :: b)) = [c :: s, b]
    unfold splitSlash
    rw [if_neg hc, ih hs]

/-- The head of a list is a member. -/
theorem mem_of_head?_eq {l : Str} {x : Char} (h : l.head? = some x) : x ∈ l := by
  cases l with
  | nil => cases h
  | cons a t =>
    have : a = x := by injection h
    exact this ▸ List.mem_cons_self a t

/-- Head of an append with a non-empty left part. -/
theorem head?_append_left {a b : Str} (h : a ≠ []) : (a ++ b).head? = a.head? := by
  cases a with
  | nil => cases h rfl
  | cons c s => rfl

/-- Unfolding of `isPureNum`. -/
theorem isPureNum_iff {l : Str} :
    isPureNum l = true ↔ l ≠ [] ∧ ∀ c ∈ l, c.isDigit = true := by
  unfold isPureNum
  simp [List.isEmpty_iff, List.all_eq_true]

/-- Unfolding of `stripZeros` without the local binding. -/
theorem stripZeros_def (l : Str) :
    stripZeros l = if (l.dropWhile (· == '0')).isEmpty then ['0']
                   else l.dropWhile (· == '0') := rfl

/-- `stripZeros` never returns the empty string. -/
theorem stripZeros_ne_nil (l : Str) : stripZeros l ≠ [] := by
  rw [stripZeros_def]
  split
  · simp
  · rename_i h
    simpa [List.isEmpty_iff] using h

/-- Every character of `stripZeros l` is `'0'` or a character of `l`. -/
theorem mem_stripZeros {l : Str} {c : Char} (h : c ∈ stripZeros l) :
    c = '0' ∨ c ∈ l := by
  rw [stripZeros_def] at h
  split at h
  · simp at h
    exact Or.inl h
  · exact Or.inr ((List.dropWhile_sublist _).mem h)

/-- `stripZeros` of a digit string is all digits. -/
theorem digits_stripZeros {l : Str} (hd : ∀ c ∈ l, c.isDigit = true) :
    ∀ c ∈ stripZeros l, c.isDigit = true := by
  intro c hc
  rcases mem_stripZeros hc with rfl | hm
  · decide
  · exact hd c hm

/-- `stripZeros` is idempotent. -/
theorem stripZeros_idem (l : Str) : stripZeros (stripZeros l) = stripZeros l := by
  rw [stripZeros_def l]
  by_cases he : (l.dropWhile (· == '0')).isEmpty
  · rw [if_pos he]
    decide
  · rw [if_neg he]
    cases hd : (l.dropWhile (· == '0')) with
    | nil => rw [hd] at he; simp at he
    | cons a t =>
      have hh := List.head?_dropWhile_not (· == '0') l
      rw [hd] at hh
      have ha : (a == '0') = false := hh
      rw [stripZeros_def, List.dropWhile_cons_of_neg (by simp [ha])]
      simp

/-- A digit string contains no slash. -/
theorem no_slash_of_digits {l : Str} (hd : ∀ c ∈ l, c.isDigit = true) : '/' ∉ l := by
  intro hm
  have := hd '/' hm
  exact absurd this (by decide)

/-- A digit string is unchanged by `jsTrim`. -/
theorem jsTrim_of_digits {l : Str} (hd : ∀ c ∈ l, c.isDigit = true) : jsTrim l = l := by
  refine jsTrim_eq_self (fun x hx => ?_) (fun x hx => ?_)
  · exact not_jsWS_of_isDigit (hd x (mem_of_head?_eq hx))
  · exact not_jsWS_of_isDigit (hd x (by simpa using mem_of_head?_eq hx))

/-- The body of `normalizeCardNumber` with the local bindings inlined. -/
theorem normalizeCardNumber_def (input : Str) :
    normalizeCardNumber input =
      if (jsTrim input).isEmpty then
        { number := [], total := none, full := [], original := [], hasTotal := false }
      else
        match splitSlash (jsTrim input) with
        | [numberPart, totalPart] =>
          { number := if isPureNum numberPart then stripZeros numberPart else numberPart,
            total := some totalPart,
            full := (if isPureNum numberPart then stripZeros numberPart else numberPart)
              ++ '/' :: totalPart,
            original := jsTrim input, hasTotal := true }
        | _ =>
          if isPureNum (jsTrim input) then
            { number := stripZeros (jsTrim input), total := none,
              full := stripZeros (jsTrim input), original := jsTrim input, hasTotal := false }
          else
            { number := jsTrim input, total := none, full := jsTrim input,
              original := jsTrim input, hasTotal := false } := rfl

/-- Branch lemma: empty (trimmed) input. -/
theorem normalizeCardNumber_empty {input : Str} (h : jsTrim input = []) :
    normalizeCardNumber input =
      { number := [], total := none, full := [], original := [], hasTotal := false } := by
  rw [normalizeCardNumber_def, h]
  rfl

/-- Branch lemma: the trimmed input splits at exactly one slash. -/
theorem normalizeCardNumber_pair {input n t : Str}
    (h : splitSlash (jsTrim input) = [n, t]) :
    normalizeCardNumber input =
      { number := if isPureNum n then stripZeros n else n, total := some t,
        full := (if isPureNum n then stripZeros n else n) ++ '/' :: t,
        original := jsTrim input, hasTotal := true } := by
  have hne : jsTrim input ≠ [] := by
    intro he
    rw [he] at h
    simp [splitSlash] at h
  have hcond : ¬((jsTrim input).isEmpty = true) := by
    simpa [List.isEmpty_iff] using hne
  rw [normalizeCardNumber_def, if_neg hcond, h]

/-- Branch lemma: no-total case (zero or several slashes). -/
theorem normalizeCardNumber_noPair {input : Str} (hne : jsTrim input ≠ [])
    (h : ∀ n t, splitSlash (jsTrim input) ≠ [n, t]) :
    normalizeCardNumber input =
      if isPureNum (jsTrim input) then
        { number := stripZeros (jsTrim input), total := none,
          full := stripZeros (jsTrim input), original := jsTrim input, hasTotal := false }
      else
        { number := jsTrim input, total := none, full := jsTrim input,
          original := jsTrim input, hasTotal := false } := by
  have hcond : ¬((jsTrim input).isEmpty = true) := by
    simpa [List.isEmpty_iff] using hne
  rw [normalizeCardNumber_def, if_neg hcond]
  cases hsp : splitSlash (jsTrim input) with
  | nil => exact absurd hsp (splitSlash_ne_nil _)
  | cons a s =>
    cases s with
    | nil => rfl
    | cons b s2 =>
      cases s2 with
      | nil => exact absurd hsp (h a b)
      | cons c s3 => rfl

/-- `normalizeCardNumber` is a fixpoint on the output of `stripZeros`
applied to a digit string. -/
theorem normalizeCardNumber_stripZeros_fix {o : Str}
    (hd : ∀ c ∈ o, c.isDigit = true) :
    normalizeCardNumber (stripZeros o) =
      { number := stripZeros o, total := none, full := stripZeros o,
        original := stripZeros o, hasTotal := false } := by
  have hdigits := digits_stripZeros hd
  have hne := stripZeros_ne_nil o
  have htrim : jsTrim (stripZeros o) = stripZeros o := jsTrim_of_digits hdigits
  have hnsl : '/' ∉ stripZeros o := no_slash_of_digits hdigits
  have hsp : splitSlash (jsTrim (stripZeros o)) = [stripZeros o] := by
    rw [htrim]
    exact splitSlash_no_slash hnsl
  have hnp : ∀ n t, splitSlash (jsTrim (stripZeros o)) ≠ [n, t] := by
    intro n t he
    rw [hsp] at he
    cases he
  rw [normalizeCardNumber_noPair (by rw [htrim]; exact hne) hnp, htrim]
  rw [if_pos (isPureNum_iff.mpr ⟨hne, hdigits⟩)]
  rw [stripZeros_idem]

/-- C5's amended idempotence: re-normalizing the canonical `full`
rendering reproduces the `number`, `total`, `full` and `hasTotal` fields
(the `original` field instead records `full` itself). -/
theorem normalizeCardNumber_full_fields (input : Str) :
    ((normalizeCardNumber (normalizeCardNumber input).full).number
        = (normalizeCardNumber input).number) ∧
    ((normalizeCardNumber (normalizeCardNumber input).full).total
        = (normalizeCardNumber input).total) ∧
    ((normalizeCardNumber (normalizeCardNumber input).full).full
        = (normalizeCardNumber input).full) ∧
    ((normalizeCardNumber (normalizeCardNumber input).full).hasTotal
        = (normalizeCardNumber input).hasTotal) := by
  by_cases hemp : jsTrim input = []
  · have h2 : normalizeCardNumber ([] : Str) =
        { number := [], total := none, full := [], original := [], hasTotal := false } :=
      normalizeCardNumber_empty rfl
    rw [normalizeCardNumber_empty hemp]
    dsimp only
    rw [h2]
    exact ⟨rfl, rfl, rfl, rfl⟩
  · cases hsp : splitSlash (jsTrim input) with
    | nil => exact absurd hsp (splitSlash_ne_nil _)
    | cons a s =>
      cases s with
      | nil =>
        -- no slash in the trimmed input
        obtain ⟨hae, hnsl⟩ := splitSlash_eq_single hsp
        have hnp : ∀ n t, splitSlash (jsTrim input) ≠ [n, t] := by
          intro n t he
          rw [hsp] at he
          injection he with _ he2
          cases he2
        rw [normalizeCardNumber_noPair hemp hnp]
        by_cases hpure : isPureNum (jsTrim input)
        · rw [if_pos hpure]
          dsimp only
          rw [normalizeCardNumber_stripZeros_fix (isPureNum_iff.mp hpure).2]
          exact ⟨rfl, rfl, rfl, rfl⟩
        · rw [if_neg hpure]
          dsimp only
          have htrim : jsTrim (jsTrim input) = jsTrim input := jsTrim_idem input
          have hnp2 : ∀ n t, splitSlash (jsTrim (jsTrim input)) ≠ [n, t] := by
            intro n t he
            rw [htrim] at he
            exact hnp n t he
          rw [normalizeCardNumber_noPair (by rw [htrim]; exact hemp) hnp2, htrim,
            if_neg hpure]
          exact ⟨rfl, rfl, rfl, rfl⟩
      | cons b s2 =>
        cases s2 with
        | nil =>
          -- exactly one slash: the two-part branch
          obtain ⟨hna, hnb, hdecomp⟩ := splitSlash_eq_pair hsp
          rw [normalizeCardNumber_pair hsp]
          dsimp only
          have hnnsl : '/' ∉ (if isPureNum a then stripZeros a else a) := by
            split
            · rename_i hpa
              exact no_slash_of_digits (digits_stripZeros (isPureNum_iff.mp hpa).2)
            · exact hna
          have hfulltrim :
              jsTrim ((if isPureNum a then stripZeros a else a) ++ '/' :: b)
                = (if isPureNum a then stripZeros a else a) ++ '/' :: b := by
            refine jsTrim_eq_self (fun x hx => ?_) (fun x hx => ?_)
            · -- head of the rendered full string is never whitespace
              cases hc : (if isPureNum a then stripZeros a else a) with
              | nil =>
                rw [hc] at hx
                have hx7 : x = '/' := by injection hx with hx8; exact hx8.symm
                rw [hx7]
                exact not_jsWS_slash
              | cons c cs =>
                rw [hc, List.cons_append] at hx
                have hxc : x = c := by injection hx with hx8; exact hx8.symm
                subst hxc
                by_cases hpa : isPureNum a
                · rw [if_pos hpa] at hc
                  refine not_jsWS_of_isDigit ?_
                  exact digits_stripZeros (isPureNum_iff.mp hpa).2 x
                    (hc ▸ List.mem_cons_self x cs)
                · rw [if_neg hpa] at hc
                  -- head of `a` is the head of the trimmed input
                  have hhead : (jsTrim input).head? = some x := by
                    rw [hdecomp, hc]
                    rfl
                  exact head?_jsTrim hhead
            · -- last character of the rendered full string is never whitespace
              have hfrev : ((if isPureNum a then stripZeros a else a) ++ '/' :: b).reverse
                  = b.reverse ++ '/' :: (if isPureNum a then stripZeros a else a).reverse := by
                simp
              rw [hfrev] at hx
              cases hbr : b.reverse with
              | nil =>
                rw [hbr] at hx
                have hx7 : x = '/' := by injection hx with hx8; exact hx8.symm
                rw [hx7]
                exact not_jsWS_slash
              | cons c cs =>
                rw [hbr, List.cons_append] at hx
                have hxc : x = c := by injection hx with hx8; exact hx8.symm
                subst hxc
                -- the last character of `b` is the last character of the trimmed input
                have hrev : (jsTrim input).reverse.head? = some x := by
                  rw [hdecomp]
                  have ha2 : (a ++ '/' :: b).reverse
                      = b.reverse ++ '/' :: a.reverse := by simp
                  rw [ha2, hbr]
                  rfl
                exact head?_reverse_jsTrim hrev
          have hfullsp :
              splitSlash (jsTrim ((if isPureNum a then stripZeros a else a) ++ '/' :: b))
                = [if isPureNum a then stripZeros a else a, b] := by
            rw [hfulltrim]
            exact splitSlash_append hnnsl hnb
          rw [normalizeCardNumber_pair hfullsp]
          dsimp only
          have hstable : (if isPureNum (if isPureNum a then stripZeros a else a) then
              stripZeros (if isPureNum a then stripZeros a else a)
              else (if isPureNum a then stripZeros a else a))
              = (if isPureNum a then stripZeros a else a) := by
            by_cases hpa : isPureNum a
            · rw [if_pos hpa]
              have hsd := digits_stripZeros (isPureNum_iff.mp hpa).2
              rw [if_pos (isPureNum_iff.mpr ⟨stripZeros_ne_nil a, hsd⟩)]
              exact stripZeros_idem a
            · rw [if_neg hpa, if_neg hpa]
          rw [hstable]
          exact ⟨rfl, rfl, rfl, rfl⟩
        | cons c s3 =>
          -- two or more slashes: wildcard branch
          have hnp : ∀ n t, splitSlash (jsTrim input) ≠ [n, t] := by
            intro n t he
            rw [hsp] at he
            injection he with _ he2
            injection he2 with _ he3
            cases he3
          rw [normalizeCardNumber_noPair hemp hnp]
          by_cases hpure : isPureNum (jsTrim input)
          · rw [if_pos hpure]
            dsimp only
            rw [normalizeCardNumber_stripZeros_fix (isPureNum_iff.mp hpure).2]
            exact ⟨rfl, rfl, rfl, rfl⟩
          · rw [if_neg hpure]
            dsimp only
            have htrim : jsTrim (jsTrim input) = jsTrim input := jsTrim_idem input
            have hnp2 : ∀ n t, splitSlash (jsTrim (jsTrim input)) ≠ [n, t] := by
              intro n t he
              rw [htrim] at he
              exact hnp n t he
            rw [normalizeCardNumber_noPair (by rw [htrim]; exact hemp) hnp2, htrim,
              if_neg hpure]
            exact ⟨rfl, rfl, rfl, rfl⟩

/-- `strCmp` is total: one direction always compares non-positively. -/
theorem strCmp_total (s t : Str) : strCmp s t ≤ 0 ∨ strCmp t s ≤ 0 := by
  induction s generalizing t with
  | nil => cases t <;> simp [strCmp]
  | cons a s ih =>
    cases t with
    | nil => right; simp [strCmp]
    | cons b t =>
      by_cases hab : a = b
      · subst hab
        simpa [strCmp] using ih t
      · by_cases hlt : a < b
        · left
          simp [strCmp, hab, hlt]
        · right
          have hba : b < a := lt_of_le_of_ne (le_of_not_lt hlt) (Ne.symm hab)
          simp [strCmp, Ne.symm hab, hba]

/-- The sort relation of `sortByAccuracy` is total. -/
theorem sortR_total (a b : SortCard) : sortR a b ∨ sortR b a := by
  by_cases hs : a.score = b.score
  · have hab : sortCmp a b =
        (if jsTruthyO a.releaseDate && jsTruthyO b.releaseDate then
          strCmp (b.releaseDate.getD []) (a.releaseDate.getD []) else 0) := by
      unfold sortCmp
      rw [if_neg (by simp [hs])]
    have hba : sortCmp b a =
        (if jsTruthyO b.releaseDate && jsTruthyO a.releaseDate then
          strCmp (a.releaseDate.getD []) (b.releaseDate.getD []) else 0) := by
      unfold sortCmp
      rw [if_neg (by simp [hs])]
    unfold sortR
    rw [hab, hba]
    cases hta : jsTruthyO a.releaseDate <;> cases htb : jsTruthyO b.releaseDate <;> simp
    exact strCmp_total _ _
  · unfold sortR sortCmp
    rw [if_pos (fun he => hs he.symm), if_pos hs]
    omega

/-- The element at the head of an `orderedInsert` is the inserted element
or the old head. -/
theorem head?_orderedInsert_cases {α : Type} {r : α → α → Prop} [DecidableRel r]
    {a y : α} {t : List α} (h : (List.orderedInsert r a t).head? = some y) :
    y = a ∨ t.head? = some y := by
  cases t with
  | nil =>
    left
    simp only [List.orderedInsert, List.head?] at h
    injection h with h1
    exact h1.symm
  | cons b s =>
    by_cases hr : r a b
    · left
      simp only [List.orderedInsert, if_pos hr, List.head?] at h
      injection h with h1
      exact h1.symm
    · right
      simp only [List.orderedInsert, if_neg hr, List.head?] at h
      exact h

/-- Under a total relation, `orderedInsert` preserves consecutive
ordering. -/
theorem chain'_orderedInsert {α : Type} {r : α → α → Prop} [DecidableRel r]
    (total : ∀ a b, r a b ∨ r b a) (a : α) :
    ∀ l : List α, l.Chain' r → (List.orderedInsert r a l).Chain' r := by
  intro l
  induction l with
  | nil =>
    intro _
    simp [List.orderedInsert]
  | cons b t ih =>
    intro h
    by_cases hr : r a b
    · simp only [List.orderedInsert, if_pos hr]
      exact List.chain'_cons.mpr ⟨hr, h⟩
    · simp only [List.orderedInsert, if_neg hr]
      have hins := ih h.tail
      refine List.chain'_cons'.mpr ⟨?_, hins⟩
      intro y hy
      rcases head?_orderedInsert_cases hy with rfl | hh
      · exact (total y b).resolve_left hr
      · exact (List.chain'_cons'.mp h).1 y hh

/-- Under a total relation, insertion sort produces a consecutively
ordered list. -/
theorem chain'_insertionSort {α : Type} {r : α → α → Prop} [DecidableRel r]
    (total : ∀ a b, r a b ∨ r b a) :
    ∀ l : List α, (l.insertionSort r).Chain' r
  | [] => List.chain'_nil
  | a :: l => chain'_orderedInsert total a _ (chain'_insertionSort total l)

/-- A non-positive comparator value bounds the right score by the left. -/
theorem score_le_of_sortR {a b : SortCard} (h : sortR a b) : b.score ≤ a.score := by
  unfold sortR sortCmp at h
  by_cases hs : b.score = a.score
  · exact le_of_eq hs
  · rw [if_pos hs] at h
    omega

/-- Equal-score cards where either release date is missing (or empty)
compare as a tie under the comparator. -/
theorem sortCmp_eq_zero_of_missing {a b : SortCard} (hs : a.score = b.score)
    (hm : jsTruthyO a.releaseDate = false ∨ jsTruthyO b.releaseDate = false) :
    sortCmp a b = 0 := by
  unfold sortCmp
  rw [if_neg (by simp [hs])]
  rcases hm with hm | hm <;> simp [hm]

/-- C2 counterexample: the claim says a card with a missing release date
compares as smaller than any card that has one, so with equal scores the
dated card should be sorted first (descending).  In the code the
comparator returns 0 when either date is missing, so input order is kept:
sorting `[no-date, dated]` (equal scores) leaves the no-date card first,
not the claimed `[dated, no-date]`. -/
theorem sortByAccuracy_missing_date_not_smallest :
    sortByAccuracy [{ score := 5, releaseDate := none },
                    { score := 5, releaseDate := some ['2','0','2','3'] }]
      = [{ score := 5, releaseDate := none },
         { score := 5, releaseDate := some ['2','0','2','3'] }] ∧
    sortByAccuracy [{ score := 5, releaseDate := none },
                    { score := 5, releaseDate := some ['2','0','2','3'] }]
      ≠ [{ score := 5, releaseDate := some ['2','0','2','3'] },
         { score := 5, releaseDate := none }] := by
  constructor
  · decide
  · decide

/-- C2 (amended): `sortByAccuracy` returns a permutation of its input that
is ordered by `score` descending; consecutive cards always satisfy the
comparator non-positively (so adjacent equal-score cards that both carry a
non-empty release date are in descending lexicographic date order); any
pair the comparator does not order strictly keeps its input order (the
sort is stable); and an equal-score pair where either release date is
missing or empty compares as a tie (not as smaller). -/
theorem sortByAccuracy_sorted_stable (l : List SortCard) :
    List.Perm (sortByAccuracy l) l ∧
    List.Pairwise (fun a b => b.score ≤ a.score) (sortByAccuracy l) ∧
    List.Chain' sortR (sortByAccuracy l) ∧
    (∀ x y : SortCard, List.Sublist [x, y] l → sortCmp x y ≤ 0 → List.Sublist [x, y] (sortByAccuracy l)) ∧
    (∀ a b : SortCard, a.score = b.score →
      (jsTruthyO a.releaseDate = false ∨ jsTruthyO b.releaseDate = false) →
      sortCmp a b = 0) := by
  have hch := chain'_insertionSort sortR_total l
  refine ⟨List.perm_insertionSort sortR l, ?_, hch, ?_, ?_⟩
  · haveI : IsTrans SortCard (fun a b => b.score ≤ a.score) :=
      ⟨fun _ _ _ h1 h2 => le_trans h2 h1⟩
    exact List.chain'_iff_pairwise.mp
      (List.Chain'.imp (fun _ _ h => score_le_of_sortR h) hch)
  · intro x y hsub hc
    exact List.pair_sublist_insertionSort (show sortR x y from hc) hsub
  · intro a b hs hm
    exact sortCmp_eq_zero_of_missing hs hm

/-- Witness for the amended C2 theorem at a concrete tie: a no-date card
ahead of an equal-score dated card stays ahead after sorting. -/
theorem sortByAccuracy_sorted_stable_witness :
    List.Sublist
      [({ score := 5, releaseDate := none } : SortCard),
       { score := 5, releaseDate := some ['2','0','2','3'] }]
      (sortByAccuracy [{ score := 5, releaseDate := none },
                       { score := 5, releaseDate := some ['2','0','2','3'] }]) :=
  (sortByAccuracy_sorted_stable
    [{ score := 5, releaseDate := none },
     { score := 5, releaseDate := some ['2','0','2','3'] }]).2.2.2.1
    { score := 5, releaseDate := none }
    { score := 5, releaseDate := some ['2','0','2','3'] }
    (by decide) (by decide)

/-- C5 counterexample: at input `"025"` the re-normalized record differs
from the original one — `normalizeCardNumber "025"` has `original =
"025"`, while normalizing its `full` rendering `"25"` records `original =
"25"` — so `normalize(normalize(x).full) = normalize(x)` fails as an
equality of `NormalizedCardNumber` values. -/
theorem normalizeCardNumber_full_not_identical :
    normalizeCardNumber ((normalizeCardNumber ['0','2','5']).full)
      ≠ normalizeCardNumber ['0','2','5'] := by decide

/-- The number component is never negative. -/
theorem numberMatchScore_nonneg (c : Str) (q : NormalizedCardNumber) :
    0 ≤ numberMatchScore c q := by
  simp only [numberMatchScore]
  split_ifs <;> norm_num

/-- The name component is never negative. -/
theorem nameMatchScore_nonneg (c q : Str) : 0 ≤ nameMatchScore c q := by
  simp only [nameMatchScore]
  split_ifs <;> norm_num

/-- The set component is never negative. -/
theorem setMatchScore_nonneg (c : Str) (q : Option Str) :
    0 ≤ setMatchScore c q := by
  simp only [setMatchScore]
  split_ifs <;> norm_num

/-- The recency component is never negative. -/
theorem recencyBonusScore_nonneg (d : Option Str) (y : Int) :
    0 ≤ recencyBonusScore d y := by
  simp only [recencyBonusScore]
  split
  · split
    · norm_num
    · split_ifs <;> norm_num
  · norm_num

/-- C3: the accuracy score equals the exact sum of its six breakdown
components and is never negative — both for `calculateAccuracyScore`
itself and for every `ScoredCard` produced by `scoreAndSortCards`. -/
theorem accuracyScore_sum_of_breakdown_nonneg :
    (∀ (p : AccuracyScoreParams) (year : Int),
      (calculateAccuracyScore p year).score
        = (calculateAccuracyScore p year).breakdown.numberMatch
          + (calculateAccuracyScore p year).breakdown.nameMatch
          + (calculateAccuracyScore p year).breakdown.setMatch
          + (calculateAccuracyScore p year).breakdown.languageBonus
          + (calculateAccuracyScore p year).breakdown.priceBonus
          + (calculateAccuracyScore p year).breakdown.recencyBonus ∧
      0 ≤ (calculateAccuracyScore p year).score) ∧
    (∀ (cards : List TCGCard) (qn : NormalizedCardNumber) (qname : Str)
        (qset : Option Str) (year : Int) (sc : ScoredCard),
      sc ∈ scoreAndSortCards cards qn qname qset year →
      (sc.accuracyScore
        = sc.scoreBreakdown.numberMatch + sc.scoreBreakdown.nameMatch
          + sc.scoreBreakdown.setMatch + sc.scoreBreakdown.languageBonus
          + sc.scoreBreakdown.priceBonus + sc.scoreBreakdown.recencyBonus ∧
      0 ≤ sc.accuracyScore)) := by
  have hmain : ∀ (p : AccuracyScoreParams) (year : Int),
      (calculateAccuracyScore p year).score
        = (calculateAccuracyScore p year).breakdown.numberMatch
          + (calculateAccuracyScore p year).breakdown.nameMatch
          + (calculateAccuracyScore p year).breakdown.setMatch
          + (calculateAccuracyScore p year).breakdown.languageBonus
          + (calculateAccuracyScore p year).breakdown.priceBonus
          + (calculateAccuracyScore p year).breakdown.recencyBonus ∧
      0 ≤ (calculateAccuracyScore p year).score := by
    intro p year
    constructor
    · rfl
    · show (0 : Int) ≤ numberMatchScore p.cardNumber p.queryNumber
        + nameMatchScore p.cardName p.queryName
        + setMatchScore p.cardSetId p.querySetId
        + 0
        + (if p.hasMarketPrice then 3 else 0)
        + recencyBonusScore p.cardReleaseDate year
      have hp : (0 : Int) ≤ if p.hasMarketPrice then 3 else 0 := by
        split <;> norm_num
      have h1 := numberMatchScore_nonneg p.cardNumber p.queryNumber
      have h2 := nameMatchScore_nonneg p.cardName p.queryName
      have h3 := setMatchScore_nonneg p.cardSetId p.querySetId
      have h4 := recencyBonusScore_nonneg p.cardReleaseDate year
      omega
  refine ⟨hmain, ?_⟩
  intro cards qn qname qset year sc hmem
  have hmem2 : sc ∈ cards.map (mkScoredCard · qn qname qset year) := by
    have := List.perm_insertionSort scoredR (cards.map (mkScoredCard · qn qname qset year))
    exact this.mem_iff.mp hmem
  obtain ⟨card, _, rfl⟩ := List.mem_map.mp hmem2
  exact hmain
    { cardNumber := card.number, cardName := card.name,
      cardSetId := card.set.id, cardReleaseDate := some card.set.releaseDate,
      hasMarketPrice := (getCardMarketPrice card).isSome, queryNumber := qn,
      queryName := qname, querySetId := qset } year

/-- Witness for C3 at a concrete card and query: the produced scored card
satisfies the sum identity and non-negativity. -/
theorem accuracyScore_sum_of_breakdown_nonneg_witness :
    ((mkScoredCard
        { id := ['x'], name := ['P'], number := ['2','5'], rarity := none,
          set := { id := ['s'], name := ['S'],
                   releaseDate := ['2','0','2','3','-','0','1','-','0','1'] },
          tcgplayer := none }
        (normalizeCardNumber ['2','5']) ['P'] none 2024).accuracyScore
      = (mkScoredCard
        { id := ['x'], name := ['P'], number := ['2','5'], rarity := none,
          set := { id := ['s'], name := ['S'],
                   releaseDate := ['2','0','2','3','-','0','1','-','0','1'] },
          tcgplayer := none }
        (normalizeCardNumber ['2','5']) ['P'] none 2024).scoreBreakdown.numberMatch
        + (mkScoredCard
        { id := ['x'], name := ['P'], number := ['2','5'], rarity := none,
          set := { id := ['s'], name := ['S'],
                   releaseDate := ['2','0','2','3','-','0','1','-','0','1'] },
          tcgplayer := none }
        (normalizeCardNumber ['2','5']) ['P'] none 2024).scoreBreakdown.nameMatch
        + (mkScoredCard
        { id := ['x'], name := ['P'], number := ['2','5'], rarity := none,
          set := { id := ['s'], name := ['S'],
                   releaseDate := ['2','0','2','3','-','0','1','-','0','1'] },
          tcgplayer := none }
        (normalizeCardNumber ['2','5']) ['P'] none 2024).scoreBreakdown.setMatch
        + (mkScoredCard
        { id := ['x'], name := ['P'], number := ['2','5'], rarity := none,
          set := { id := ['s'], name := ['S'],
                   releaseDate := ['2','0','2','3','-','0','1','-','0','1'] },
          tcgplayer := none }
        (normalizeCardNumber ['2','5']) ['P'] none 2024).scoreBreakdown.languageBonus
        + (mkScoredCard
        { id := ['x'], name := ['P'], number := ['2','5'], rarity := none,
          set := { id := ['s'], name := ['S'],
                   releaseDate := ['2','0','2','3','-','0','1','-','0','1'] },
          tcgplayer := none }
        (normalizeCardNumber ['2','5']) ['P'] none 2024).scoreBreakdown.priceBonus
        + (mkScoredCard
        { id := ['x'], name := ['P'], number := ['2','5'], rarity := none,
          set := { id := ['s'], name := ['S'],
                   releaseDate := ['2','0','2','3','-','0','1','-','0','1'] },
          tcgplayer := none }
        (normalizeCardNumber ['2','5']) ['P'] none 2024).scoreBreakdown.recencyBonus) ∧
    0 ≤ (mkScoredCard
        { id := ['x'], name := ['P'], number := ['2','5'], rarity := none,
          set := { id := ['s'], name := ['S'],
                   releaseDate := ['2','0','2','3','-','0','1','-','0','1'] },
          tcgplayer := none }
        (normalizeCardNumber ['2','5']) ['P'] none 2024).accuracyScore :=
  accuracyScore_sum_of_breakdown_nonneg.2
    [{ id := ['x'], name := ['P'], number := ['2','5'], rarity := none,
       set := { id := ['s'], name := ['S'],
                releaseDate := ['2','0','2','3','-','0','1','-','0','1'] },
       tcgplayer := none }]
    (normalizeCardNumber ['2','5']) ['P'] none 2024
    (mkScoredCard
      { id := ['x'], name := ['P'], number := ['2','5'], rarity := none,
        set := { id := ['s'], name := ['S'],
                 releaseDate := ['2','0','2','3','-','0','1','-','0','1'] },
        tcgplayer := none }
      (normalizeCardNumber ['2','5']) ['P'] none 2024)
    (by decide)

/-- C4: the `numberMatch` breakdown component computed by
`calculateAccuracyScore` equals the specification's point rule
`numberMatchSpec` for every candidate number and normalized query
number. -/
theorem numberMatch_eq_spec (p : AccuracyScoreParams) (year : Int) :
    (calculateAccuracyScore p year).breakdown.numberMatch
      = numberMatchSpec p.cardNumber p.queryNumber := by
  show numberMatchScore p.cardNumber p.queryNumber
    = numberMatchSpec p.cardNumber p.queryNumber
  unfold numberMatchScore numberMatchSpec strContains jsTruthy
  by_cases hq : p.queryNumber.number = []
  · simp [hq]
  · have h1 : (!(p.queryNumber.number.isEmpty)) = true := by
      simp [List.isEmpty_iff, hq]
    rw [if_pos h1, if_neg hq]
    by_cases h50 : (normalizeCardNumber p.cardNumber).number = p.queryNumber.number
    · rw [if_pos h50, if_pos h50]
    · rw [if_neg h50, if_neg h50]
      by_cases h30 : p.queryNumber.number <:+: p.cardNumber
      · rw [if_pos (by simpa using h30), if_pos h30]
      · rw [if_neg (by simpa using h30), if_neg h30]
        by_cases h20 : p.queryNumber.number <:+: (normalizeCardNumber p.cardNumber).number
            ∨ (normalizeCardNumber p.cardNumber).number <:+: p.queryNumber.number
        · rw [if_pos (by simpa using h20.symm), if_pos h20]
        · rw [if_neg (by simpa using fun h => h20 (Or.symm h)), if_neg h20]

/-- C10 counterexample: the claim says a candidate whose number normalizes
to the empty string always receives `numberMatch = 20`; but the candidate
`"/165"` (normalized number `""`) against the query number `"165"` scores
30, because the raw-substring rule fires first. -/
theorem numberMatch_empty_normalized_thirty :
    ((calculateAccuracyScore
        { cardNumber := ['/','1','6','5'], cardName := [], cardSetId := [],
          cardReleaseDate := none, hasMarketPrice := false,
          queryNumber := normalizeCardNumber ['1','6','5'], queryName := [],
          querySetId := none } 2024).breakdown.numberMatch = 30) ∧
    ((normalizeCardNumber ['/','1','6','5']).number = []) ∧
    ((normalizeCardNumber ['1','6','5']).number ≠ []) ∧
    ((calculateAccuracyScore
        { cardNumber := ['/','1','6','5'], cardName := [], cardSetId := [],
          cardReleaseDate := none, hasMarketPrice := false,
          queryNumber := normalizeCardNumber ['1','6','5'], queryName := [],
          querySetId := none } 2024).breakdown.numberMatch ≠ 20) := by
  refine ⟨by decide, by decide, by decide, by decide⟩

/-- C10 (amended): under a query with a non-empty normalized number, a
candidate whose own number normalizes to the empty string receives
`numberMatch = 30` when its raw number string contains the query's
normalized number as a substring, and otherwise `numberMatch = 20` through
the mutual-substring rule (the empty string is a substring of every
string); such a candidate is never scored 0 on the number criterion. -/
theorem numberMatch_empty_normalized (p : AccuracyScoreParams) (year : Int)
    (hq : p.queryNumber.number ≠ [])
    (hc : (normalizeCardNumber p.cardNumber).number = []) :
    ((calculateAccuracyScore p year).breakdown.numberMatch
      = if p.queryNumber.number <:+: p.cardNumber then 30 else 20) ∧
    (calculateAccuracyScore p year).breakdown.numberMatch ≠ 0 := by
  have heq : (calculateAccuracyScore p year).breakdown.numberMatch
      = numberMatchSpec p.cardNumber p.queryNumber := numberMatch_eq_spec p year
  rw [heq]
  unfold numberMatchSpec
  rw [if_neg hq, if_neg (by rw [hc]; exact fun h => hq h.symm)]
  by_cases h30 : p.queryNumber.number <:+: p.cardNumber
  · rw [if_pos h30, if_pos h30]
    exact ⟨rfl, by norm_num⟩
  · rw [if_neg h30, if_neg h30]
    rw [if_pos (Or.inr (hc ▸ List.nil_infix))]
    exact ⟨rfl, by norm_num⟩

/-- Witness for the amended C10 theorem: a candidate with a whitespace-only
number field against query number `"25"` receives 20 points. -/
theorem numberMatch_empty_normalized_witness :
    ((calculateAccuracyScore
        { cardNumber := [' '], cardName := [], cardSetId := [],
          cardReleaseDate := none, hasMarketPrice := false,
          queryNumber := normalizeCardNumber ['2','5'], queryName := [],
          querySetId := none } 2024).breakdown.numberMatch
      = if (normalizeCardNumber ['2','5']).number <:+: [' '] then 30 else 20) ∧
    (calculateAccuracyScore
        { cardNumber := [' '], cardName := [], cardSetId := [],
          cardReleaseDate := none, hasMarketPrice := false,
          queryNumber := normalizeCardNumber ['2','5'], queryName := [],
          querySetId := none } 2024).breakdown.numberMatch ≠ 0 :=
  numberMatch_empty_normalized
    { cardNumber := [' '], cardName := [], cardSetId := [],
      cardReleaseDate := none, hasMarketPrice := false,
      queryNumber := normalizeCardNumber ['2','5'], queryName := [],
      querySetId := none } 2024 (by decide) (by decide)

/-- C9: for a 1-indexed page and positive page size, `paginateCards`
returns exactly the slice `[(page-1)*pageSize, page*pageSize)` (stated
pointwise), `hasMore` holds exactly when `page*pageSize` is below the list
length, pages past the end yield the empty slice with `hasMore = false`,
and `totalPages` is the ceiling of `length / pageSize` (characterized by
`length ≤ totalPages*pageSize < length + pageSize`). -/
theorem paginateCards_spec {α : Type} (cards : List α) (page pageSize : Nat)
    (hp : 1 ≤ page) (hs : 1 ≤ pageSize) :
    (∀ i, i < pageSize →
      (paginateCards cards page pageSize).items[i]?
        = cards[(page - 1) * pageSize + i]?) ∧
    (paginateCards cards page pageSize).items.length
      = min pageSize (cards.length - (page - 1) * pageSize) ∧
    ((paginateCards cards page pageSize).hasMore = true ↔
      page * pageSize < cards.length) ∧
    (cards.length ≤ (page - 1) * pageSize →
      (paginateCards cards page pageSize).items = [] ∧
      (paginateCards cards page pageSize).hasMore = false) ∧
    (cards.length ≤ (paginateCards cards page pageSize).totalPages * pageSize ∧
      (paginateCards cards page pageSize).totalPages * pageSize
        < cards.length + pageSize) := by
  obtain ⟨p, rfl⟩ : ∃ p, page = p + 1 := ⟨page - 1, by omega⟩
  have hpm : (p + 1 - 1) * pageSize = p * pageSize := by simp
  refine ⟨?_, ?_, ?_, ?_, ?_⟩
  · intro i hi
    show ((cards.drop ((p + 1 - 1) * pageSize)).take pageSize)[i]? = _
    rw [hpm, List.getElem?_take_of_lt hi, List.getElem?_drop]
  · show ((cards.drop ((p + 1 - 1) * pageSize)).take pageSize).length = _
    rw [hpm, List.length_take, List.length_drop]
  · show (decide ((p + 1 - 1) * pageSize + pageSize < cards.length) = true) ↔ _
    rw [hpm, decide_eq_true_iff, Nat.succ_mul]
  · intro hpast
    rw [hpm] at hpast
    constructor
    · show (cards.drop ((p + 1 - 1) * pageSize)).take pageSize = []
      rw [hpm, List.drop_eq_nil_of_le hpast, List.take_nil]
    · show decide ((p + 1 - 1) * pageSize + pageSize < cards.length) = false
      rw [hpm]
      exact decide_eq_false (by omega)
  · show cards.length ≤ (cards.length + pageSize - 1) / pageSize * pageSize ∧
      (cards.length + pageSize - 1) / pageSize * pageSize < cards.length + pageSize
    have hdm := Nat.div_add_mod (cards.length + pageSize - 1) pageSize
    have hmod : (cards.length + pageSize - 1) % pageSize < pageSize :=
      Nat.mod_lt _ (by omega)
    rw [Nat.mul_comm]
    generalize pageSize * ((cards.length + pageSize - 1) / pageSize) = m at hdm ⊢
    omega

/-- Witness for C9 over 30 cards with page size 12: page 1 yields 12 items
with more to come, page 3 yields the last 6 with `hasMore = false`, and
`totalPages = 3`; the `hasMore` characterization is obtained from the
theorem at page 3. -/
theorem paginateCards_spec_witness :
    (paginateCards (List.range 30) 1 12).items.length = 12 ∧
    (paginateCards (List.range 30) 1 12).hasMore = true ∧
    (paginateCards (List.range 30) 3 12).items.length = 6 ∧
    (paginateCards (List.range 30) 3 12).hasMore = false ∧
    (paginateCards (List.range 30) 1 12).totalPages = 3 ∧
    ((paginateCards (List.range 30) 3 12).hasMore = true ↔
      3 * 12 < (List.range 30).length) :=
  ⟨by decide, by decide, by decide, by decide, by decide,
   (paginateCards_spec (List.range 30) 3 12 (by decide) (by decide)).2.2.1⟩

/-- Strategy 4 and the final fallback agree with the runner on the last
segment of the strategy list. -/
theorem searchAfter3_eq_run (fetchO : SearchCardsParams → HttpOutcome)
    (vr : VisionResponse) (nn : NormalizedCardNumber) (year : Int) :
    searchFromVision.searchAfter3 fetchO vr nn year
      = runStrategies fetchO vr nn year
          (if jsTruthy vr.pokemon_name then
            [({ name := some vr.pokemon_name, number := none, setId := none }, true)]
          else []) := by
  unfold searchFromVision.searchAfter3
  by_cases g4 : jsTruthy vr.pokemon_name
  · rw [if_pos g4, if_pos g4]
    cases hf : fetchCards (fetchO { name := some vr.pokemon_name, number := none, setId := none }) with
    | error e => simp [runStrategies, hf]
    | ok r => simp [runStrategies, hf]
  · rw [if_neg g4, if_neg g4]
    rfl

/-- Strategies 3-4 and the fallback agree with the runner. -/
theorem searchAfter2_eq_run (fetchO : SearchCardsParams → HttpOutcome)
    (vr : VisionResponse) (nn : NormalizedCardNumber) (year : Int) :
    searchFromVision.searchAfter2 fetchO vr nn year
      = runStrategies fetchO vr nn year
          ((if jsTruthy vr.card_number then
              [({ name := none, number := some nn.number, setId := none }, false)]
            else []) ++
           (if jsTruthy vr.pokemon_name then
              [({ name := some vr.pokemon_name, number := none, setId := none }, true)]
            else [])) := by
  unfold searchFromVision.searchAfter2
  by_cases g3 : jsTruthy vr.card_number
  · rw [if_pos g3, if_pos g3, List.singleton_append]
    cases hf : fetchCards (fetchO { name := none, number := some nn.number, setId := none }) with
    | error e => simp [runStrategies, hf]
    | ok r =>
      by_cases hh : cascadeHit r
      · simp [runStrategies, hf, hh]
      · simp [runStrategies, hf, hh, searchAfter3_eq_run]
  · rw [if_neg g3, if_neg g3, List.nil_append]
    exact searchAfter3_eq_run fetchO vr nn year

/-- Strategies 2-4 and the fallback agree with the runner. -/
theorem searchAfter1_eq_run (fetchO : SearchCardsParams → HttpOutcome)
    (vr : VisionResponse) (nn : NormalizedCardNumber) (year : Int) :
    searchFromVision.searchAfter1 fetchO vr nn year
      = runStrategies fetchO vr nn year
          ((if jsTruthy vr.card_number && jsTruthy vr.pokemon_name then
              [({ name := some vr.pokemon_name, number := some nn.number,
                  setId := none }, false)]
            else []) ++
           (if jsTruthy vr.card_number then
              [({ name := none, number := some nn.number, setId := none }, false)]
            else []) ++
           (if jsTruthy vr.pokemon_name then
              [({ name := some vr.pokemon_name, number := none, setId := none }, true)]
            else [])) := by
  unfold searchFromVision.searchAfter1
  by_cases g2 : jsTruthy vr.card_number && jsTruthy vr.pokemon_name
  · rw [if_pos g2, if_pos g2, List.append_assoc, List.singleton_append]
    cases hf : fetchCards (fetchO { name := some vr.pokemon_name, number := some nn.number, setId := none }) with
    | error e => simp [runStrategies, hf]
    | ok r =>
      by_cases hh : cascadeHit r
      · simp [runStrategies, hf, hh]
      · simp [runStrategies, hf, hh, searchAfter2_eq_run]
  · rw [if_neg g2, if_neg g2, List.nil_append]
    exact searchAfter2_eq_run fetchO vr nn year

/-- The cascade of `searchFromVision` on a present vision result is the
runner applied to the list of enabled strategies. -/
theorem searchFromVision_eq_run (fetchO : SearchCardsParams → HttpOutcome)
    (vr : VisionResponse) (year : Int) :
    searchFromVision fetchO (some vr) year
      = runStrategies fetchO vr (normalizeCardNumber vr.card_number) year
          (strategyList vr) := by
  unfold searchFromVision strategyList
  dsimp only
  by_cases g1 : jsTruthy vr.card_number && jsTruthyO vr.set_id
  · rw [if_pos g1, if_pos g1, List.append_assoc, List.append_assoc,
      List.singleton_append]
    cases hf : fetchCards (fetchO { name := none, number := some (normalizeCardNumber vr.card_number).number, setId := vr.set_id }) with
    | error e => simp [runStrategies, hf]
    | ok r =>
      by_cases hh : cascadeHit r
      · simp [runStrategies, hf, hh]
      · simp [runStrategies, hf, hh, searchAfter1_eq_run, List.append_assoc]
  · rw [if_neg g1, if_neg g1, List.nil_append]
    exact searchAfter1_eq_run fetchO vr (normalizeCardNumber vr.card_number) year

/-- Every strategy before the last in the strategy list is conditional
(only strategy 4, always last when enabled, returns unconditionally). -/
theorem strategyList_dropLast_snd_false (vr : VisionResponse) :
    ∀ pu ∈ (strategyList vr).dropLast, pu.2 = false := by
  unfold strategyList
  by_cases g1 : jsTruthy vr.card_number && jsTruthyO vr.set_id <;>
  by_cases g2 : jsTruthy vr.card_number && jsTruthy vr.pokemon_name <;>
  by_cases g3 : jsTruthy vr.card_number <;>
  by_cases g4 : jsTruthy vr.pokemon_name <;>
    simp [g1, g2, g3, g4, List.dropLast]

/-- The strategies before any decomposition point of the strategy list are
conditional. -/
theorem strategyList_prefix_snd_false (vr : VisionResponse)
    {L1 L2 : List (SearchCardsParams × Bool)} {x : SearchCardsParams × Bool}
    (hdec : strategyList vr = L1 ++ x :: L2) :
    ∀ pu ∈ L1, pu.2 = false := by
  intro pu hmem
  refine strategyList_dropLast_snd_false vr pu ?_
  rw [hdec, List.dropLast_append_cons]
  exact List.mem_append_left _ hmem

/-- The runner returns the scored result of the first hit: if every
strategy before the decomposition point is conditional, completes, and
misses, and the strategy at the point completes with a hit, the runner
returns exactly that strategy's scored result, having called exactly the
strategies up to and including it. -/
theorem runStrategies_first_hit (fetchO : SearchCardsParams → HttpOutcome)
    (vr : VisionResponse) (nn : NormalizedCardNumber) (year : Int) :
    ∀ (L1 : List (SearchCardsParams × Bool)) (p : SearchCardsParams) (u : Bool)
      (L2 : List (SearchCardsParams × Bool)),
    (∀ pu ∈ L1, pu.2 = false ∧
      ∃ r, fetchCards (fetchO pu.1) = .ok r ∧ cascadeHit r = false) →
    (∃ r, fetchCards (fetchO p) = .ok r ∧ cascadeHit r = true) →
    ∃ r, fetchCards (fetchO p) = .ok r ∧
      runStrategies fetchO vr nn year (L1 ++ (p, u) :: L2)
        = (.ok (mkScoredResult r nn vr.pokemon_name vr.set_id year),
           L1.map Prod.fst ++ [p]) := by
  intro L1
  induction L1 with
  | nil =>
    intro p u L2 _ hhit
    obtain ⟨r, hf, hh⟩ := hhit
    refine ⟨r, hf, ?_⟩
    show runStrategies fetchO vr nn year ((p, u) :: L2) = _
    simp [runStrategies, hf, hh]
  | cons qv L1' ih =>
    intro p u L2 hprev hhit
    obtain ⟨hq2, r0, hf0, hh0⟩ := hprev qv (List.mem_cons_self qv L1')
    obtain ⟨r, hf, hrun⟩ := ih p u L2
      (fun pu hm => hprev pu (List.mem_cons_of_mem qv hm)) hhit
    refine ⟨r, hf, ?_⟩
    obtain ⟨q, v⟩ := qv
    have hv : v = false := hq2
    subst hv
    show runStrategies fetchO vr nn year ((q, false) :: (L1' ++ (p, u) :: L2)) = _
    simp [runStrategies, hf0, hh0, hrun]

/-- `fetchCards` on a response that parsed as JSON never throws, and a
structured failure always carries an error message. -/
theorem fetchCards_resolved {o : HttpOutcome}
    (h : ∃ ok b, o = HttpOutcome.resp ok (some b)) :
    ∃ r, fetchCards o = .ok r ∧ (r.success = false → ∃ e, r.error = some e) := by
  obtain ⟨ok, b, rfl⟩ := h
  cases ok with
  | true => exact ⟨_, rfl, fun h => by cases h⟩
  | false =>
    refine ⟨_, rfl, fun _ => ?_⟩
    cases he : b.error with
    | none => exact ⟨_, rfl⟩
    | some e =>
      simp only [fetchCards, he]
      split <;> exact ⟨_, rfl⟩

/-- When every issued call completes with a JSON-parsed response, the
runner never throws, and any structured failure it returns carries an
error message. -/
theorem runStrategies_resolved (fetchO : SearchCardsParams → HttpOutcome)
    (vr : VisionResponse) (nn : NormalizedCardNumber) (year : Int)
    (hres : ∀ p, ∃ ok b, fetchO p = HttpOutcome.resp ok (some b)) :
    ∀ L : List (SearchCardsParams × Bool),
    ∃ res, (runStrategies fetchO vr nn year L).1 = .ok res ∧
      (res.success = false → ∃ e, res.error = some e) := by
  intro L
  induction L with
  | nil =>
    refine ⟨_, rfl, fun _ => ⟨_, rfl⟩⟩
  | cons pu rest ih =>
    obtain ⟨p, u⟩ := pu
    obtain ⟨r, hf, herr⟩ := fetchCards_resolved (hres p)
    by_cases hcond : (u || cascadeHit r) = true
    · refine ⟨mkScoredResult r nn vr.pokemon_name vr.set_id year, ?_, ?_⟩
      · simp [runStrategies, hf, hcond]
      · intro hs
        exact herr hs
    · obtain ⟨res, hrun, hre⟩ := ih
      refine ⟨res, ?_, hre⟩
      simp only [runStrategies, hf]
      rw [if_neg hcond]
      exact hrun

/-- C1: for every query enabling more than one cascade strategy, the
search returns exactly the scored-and-sorted results of the first enabled
strategy (in the fixed order number+setId, number+name, number, name)
whose catalog call returns at least one raw result; the trace of issued
catalog calls stops at that strategy (no later strategy executes), and the
returned result set is that single strategy's scored output, never a
merge. -/
theorem searchFromVision_first_nonempty_strategy
    (fetchO : SearchCardsParams → HttpOutcome) (vr : VisionResponse) (year : Int)
    (L1 L2 : List (SearchCardsParams × Bool)) (p : SearchCardsParams) (u : Bool)
    (hmulti : 2 ≤ (strategyList vr).length)
    (hdec : strategyList vr = L1 ++ (p, u) :: L2)
    (hmiss : ∀ pu ∈ L1, ∃ r, fetchCards (fetchO pu.1) = .ok r ∧ cascadeHit r = false)
    (hhit : ∃ r, fetchCards (fetchO p) = .ok r ∧ cascadeHit r = true) :
    ∃ r, fetchCards (fetchO p) = .ok r ∧
      searchFromVision fetchO (some vr) year
        = (.ok (mkScoredResult r (normalizeCardNumber vr.card_number)
              vr.pokemon_name vr.set_id year),
           L1.map Prod.fst ++ [p]) := by
  have hsnd := strategyList_prefix_snd_false vr hdec
  obtain ⟨r, hf, hrun⟩ := runStrategies_first_hit fetchO vr
    (normalizeCardNumber vr.card_number) year L1 p u L2
    (fun pu hm => ⟨hsnd pu hm, hmiss pu hm⟩) hhit
  exact ⟨r, hf, by rw [searchFromVision_eq_run, hdec, hrun]⟩

/-- Witness for C1: with all four strategies enabled, strategy 1 returning
zero cards and strategy 2 returning one card, the cascade returns strategy
2's scored result after calling exactly strategies 1 and 2. -/
theorem searchFromVision_first_nonempty_strategy_witness :
    ∃ r, fetchCards (sampleOracle { name := some ['P','i','k','a'], number := some ['2','5'], setId := none }) = .ok r ∧
      searchFromVision sampleOracle (some sampleVision) 2024
        = (.ok (mkScoredResult r (normalizeCardNumber sampleVision.card_number)
              sampleVision.pokemon_name sampleVision.set_id 2024),
           [missParams,
            { name := some ['P','i','k','a'], number := some ['2','5'],
              setId := none }]) :=
  searchFromVision_first_nonempty_strategy sampleOracle sampleVision 2024
    [(missParams, false)]
    [({ name := none, number := some ['2','5'], setId := none }, false),
     ({ name := some ['P','i','k','a'], number := none, setId := none }, true)]
    { name := some ['P','i','k','a'], number := some ['2','5'], setId := none }
    false
    (by decide)
    (by decide)
    (fun pu hm => by
      have hpu := List.mem_singleton.mp hm
      subst hpu
      exact ⟨{ success := true, cards := [], totalCount := 0, error := none },
        rfl, by decide⟩)
    ⟨{ success := true, cards := [sampleCard], totalCount := 1, error := none },
      rfl, by decide⟩

/-- C8 counterexample: when the underlying network call itself fails (the
fetch promise rejects, e.g. a `TypeError` on a network failure), the
cascade does not return a structured `{success:false}` result — the
exception propagates out of the query function. -/
theorem searchFromVision_throws_on_network_reject :
    (searchFromVision (fun _ => HttpOutcome.reject ['T','y','p','e','E','r','r','o','r'])
      (some { pokemon_name := ['P','i','k','a'], card_number := [], set_id := none,
              language := [] }) 2024).1
      = Except.error ['T','y','p','e','E','r','r','o','r'] := rfl

/-- C8 (amended): when every issued catalog call completes with an HTTP
response whose body parses as JSON — in particular on catalog-level
failures reported as non-OK responses — the cascade never throws, and any
structured failure it returns carries an error message; only a rejected
fetch (network failure or cancellation) or an unparseable body makes the
exception propagate to the query layer's retry handling. -/
theorem searchFromVision_structured_failure
    (fetchO : SearchCardsParams → HttpOutcome) (v : Option VisionResponse)
    (year : Int)
    (hres : ∀ p, ∃ ok b, fetchO p = HttpOutcome.resp ok (some b)) :
    ∃ res, (searchFromVision fetchO v year).1 = .ok res ∧
      (res.success = false → ∃ e, res.error = some e) := by
  cases v with
  | none => exact ⟨_, rfl, fun _ => ⟨_, rfl⟩⟩
  | some vr =>
    rw [searchFromVision_eq_run]
    exact runStrategies_resolved fetchO vr (normalizeCardNumber vr.card_number)
      year hres (strategyList vr)

/-- Witness for the amended C8 theorem: with every call answered by an
HTTP 4xx/5xx response carrying a JSON error body, the cascade returns a
structured result rather than throwing. -/
theorem searchFromVision_structured_failure_witness :
    ∃ res, (searchFromVision
        (fun _ => HttpOutcome.resp false
          (some { error := some ['b','a','d'], cards := none, totalCount := none }))
        (some sampleVision) 2024).1 = .ok res ∧
      (res.success = false → ∃ e, res.error = some e) :=
  searchFromVision_structured_failure
    (fun _ => HttpOutcome.resp false
      (some { error := some ['b','a','d'], cards := none, totalCount := none }))
    (some sampleVision) 2024
    (fun _ => ⟨false, { error := some ['b','a','d'], cards := none, totalCount := none },
      rfl⟩)

/-- A retry decision implies the failure count is still below 3. -/
theorem visionRetry_lt_three {fc : Nat} {e : Str} (h : visionRetry fc e = true) :
    fc < 3 := by
  unfold visionRetry at h
  split at h
  · cases h
  · exact of_decide_eq_true h

/-- The retry loop never exceeds four attempts, whatever the failures. -/
theorem attemptsFrom_le_four (errs : Nat → Str) :
    ∀ (fuel fc : Nat), fc ≤ 3 → attemptsFrom visionRetry errs fc fuel ≤ 4 := by
  intro fuel
  induction fuel with
  | zero =>
    intro fc hfc
    show fc + 1 ≤ 4
    omega
  | succ n ih =>
    intro fc hfc
    show (if visionRetry fc (errs fc) then attemptsFrom visionRetry errs (fc + 1) n
          else fc + 1) ≤ 4
    split
    · rename_i hp
      exact ih (fc + 1) (visionRetry_lt_three hp)
    · omega

/-- C7 counterexample: with every attempt failing with a network error,
the retry policy performs 4 attempts in total (the initial request plus 3
retries — the predicate `failureCount < 3` allows retries at failure
counts 0, 1 and 2), not the claimed maximum of 3. -/
theorem visionRetry_four_attempts :
    totalAttempts (fun _ => ['N','e','t','w','o','r','k','E','r','r','o','r']) = 4 ∧
    ¬(totalAttempts (fun _ => ['N','e','t','w','o','r','k','E','r','r','o','r']) ≤ 3) := by
  constructor
  · decide
  · decide

/-- C7 (amended): the retry policy performs at most 4 attempts in total
(the initial request plus up to 3 retries), the delay before each retry
doubling from a 1-second base (1s, 2s, 4s) and capped at 10s; an aborted
(cancelled) request is never retried — the retry predicate rejects
`AbortError` outright, so an all-aborting run makes exactly one
attempt. -/
theorem visionRetry_policy :
    (∀ (errs : Nat → Str) (fuel : Nat), attemptsFrom visionRetry errs 0 fuel ≤ 4) ∧
    visionRetryDelay 0 = 1000 ∧
    visionRetryDelay 1 = 2000 ∧
    visionRetryDelay 2 = 4000 ∧
    (∀ k, visionRetryDelay (k + 1) = min (2 * (1000 * 2 ^ k)) 10000) ∧
    (∀ k, visionRetryDelay k ≤ 10000) ∧
    (∀ fc, visionRetry fc "AbortError".toList = false) ∧
    (∀ fuel, attemptsFrom visionRetry (fun _ => "AbortError".toList) 0 fuel = 1) := by
  refine ⟨fun errs fuel => attemptsFrom_le_four errs fuel 0 (by omega),
    by decide, by decide, by decide, ?_, ?_, ?_, ?_⟩
  · intro k
    unfold visionRetryDelay
    rw [pow_succ]
    ring_nf
  · intro k
    exact Nat.min_le_right _ _
  · intro fc
    simp [visionRetry]
  · intro fuel
    cases fuel with
    | zero => rfl
    | succ n =>
      show (if visionRetry 0 "AbortError".toList then
        attemptsFrom visionRetry (fun _ => "AbortError".toList) 1 n else 1) = 1
      rw [if_neg (by simp [visionRetry])]

end PCGdex
